import Mathlib

/-
Shallow embedding of src/src/tmongoobject.cpp (TMongoObject): the
object-document mapping and persistence-lifecycle engine — collection-name
derivation, typed-field/document sync, create/update/remove/reload with
automatic timestamp/revision handling and the optimistic-lock protocol.

The external store (TMongoQuery) is modelled as the outcome it reports
(success flag and affected count), per the spec's DocumentStore contract;
the identity accessors (objectId/isNull/isNew), which live in the class
header rather than in this file, are modelled from the spec: a record is
new iff its identity is absent.
-/

set_option autoImplicit false

/-- Values held by a record's properties and documents (QVariant). -/
inductive MValue where
  | vNull
  | vInt (n : Int)
  | vStr (s : String)
  | vBool (b : Bool)
  | vTime (t : Nat)
  | vId (oid : Nat)
  deriving DecidableEq, Repr

/-- QVariant::toInt with its ok flag: `none` when the conversion fails
(dates, identifiers and null do not convert; strings convert when they
parse as an integer). -/
def MValue.toInt? : MValue → Option Int
  | .vInt n => some n
  | .vBool b => some (if b then 1 else 0)
  | .vStr s => s.toInt?
  | _ => none

/-- One declared property of the object: its name and current typed value.
The declared, ordered property list of the QMetaObject is the list itself. -/
structure FieldE where
  name : String
  value : MValue
  deriving DecidableEq, Repr

/-- A QVariantMap document: key/value pairs with unique keys. -/
abbrev Doc := List (String × MValue)

/-- QMap::insert — replaces any existing entry for the key. -/
def docInsert (d : Doc) (k : String) (v : MValue) : Doc :=
  d.filter (fun p => p.1 != k) ++ [(k, v)]

/-- QObject::setProperty restricted to declared properties: a key that
names no declared property changes nothing (the source guards every such
call with an index-lookup against the meta-object). -/
def setPropL (fs : List FieldE) (k : String) (v : MValue) : List FieldE :=
  fs.map (fun f => if f.name = k then { f with value := v } else f)

/-- QObject::property — the first declared property with the given name. -/
def getProp (fs : List FieldE) (k : String) : Option MValue :=
  (fs.find? (fun f => f.name == k)).map FieldE.value

/-- The in-memory record: QObject properties, the QVariantMap base
(`doc`), and the identity. `objId` is modelled from the spec: "a Record is
new iff its identity is absent/null". -/
structure MongoObject where
  className : String
  fields : List FieldE
  doc : Doc
  objId : Option Nat
  deriving DecidableEq, Repr

/-- Modelled from the spec: isNull — the identity is absent. -/
def MongoObject.isNull (o : MongoObject) : Bool := o.objId.isNone

/-- Modelled from the spec: isNew — a record is new iff its identity is
absent. -/
def MongoObject.isNew (o : MongoObject) : Bool := o.objId.isNone

/-- Modelled from the spec: objectId() — the opaque identity value placed
into lock predicates. -/
def MongoObject.objectId (o : MongoObject) : MValue :=
  match o.objId with
  | some oid => .vId oid
  | none => .vNull

/-- The character loop of TMongoObject::collectionName (lines 51-56):
before every upper-case character that is not at index 0 an underscore is
inserted, and every character is lower-cased. The flag says whether we are
at index 0. -/
def snakeGo : Bool → List Char → List Char
  | _, [] => []
  | first, c :: cs =>
    (if !first && c.isUpper then ['_', c.toLower] else [c.toLower]) ++ snakeGo false cs

/-- TMongoObject::collectionName (lines 46-59): snake-case the class name,
then remove a trailing "_object" (the anchored QRegExp "_object$"). -/
def collectionName (clsname : String) : String :=
  let snake : List Char := snakeGo true clsname.data
  if ("_object".data).isSuffixOf snake then
    String.mk (snake.take (snake.length - 7))
  else
    String.mk snake

/-- Written from the spec's words for the refinement claim: "insert `_`
before every upper-case letter that is not the first character, lower-case
every letter, then strip a trailing literal suffix `_object` if present". -/
def collectionNameSpec (clsname : String) : String :=
  let snake : List Char :=
    match clsname.data with
    | [] => []
    | c :: rest =>
      c.toLower :: rest.flatMap (fun d => if d.isUpper then ['_', d.toLower] else [d.toLower])
  if ("_object".data).isSuffixOf snake then
    String.mk (snake.take (snake.length - 7))
  else
    String.mk snake

/-- QByteArray::toLower on a property name (ASCII lower-casing). -/
def strLower (s : String) : String := String.mk (s.data.map Char.toLower)

/-- Does the lower-cased property name classify as UpdatedAt/ModifiedAt? -/
def isTsName (f : FieldE) : Bool :=
  strLower f.name == "updated_at" || strLower f.name == "modified_at"

/-- Does the lower-cased property name classify as the revision counter? -/
def isRevName (f : FieldE) : Bool :=
  strLower f.name == "lock_revision"

/-- TMongoObject::syncToVariantMap (lines 248-257): clear the map, then
insert every declared property under its name. -/
def syncToVariantMap (o : MongoObject) : MongoObject :=
  { o with doc := o.fields.foldl (fun d f => docInsert d f.name f.value) [] }

/-- TMongoObject::syncToObject (lines 233-245): for every map entry whose
key names a declared property, set that property from the entry. -/
def syncToObject (o : MongoObject) : MongoObject :=
  { o with fields := o.doc.foldl (fun fs p => setPropL fs p.1 p.2) o.fields }

/-- TMongoObject::isModified (lines 212-230): false when new; otherwise
true iff some map entry whose key names a declared property differs from
that property's current value. -/
def isModified (o : MongoObject) : Bool :=
  if o.isNew then false
  else o.doc.any (fun p =>
    match getProp o.fields p.1 with
    | some w => p.2 != w
    | none => false)

/-- Outcome the external store (TMongoQuery) reports for one operation:
the boolean result and numDocsAffected(). -/
structure StoreResult where
  ret : Bool
  numAffected : Nat
  deriving DecidableEq, Repr

/-- How a lifecycle operation ends: a thrown KvsException, or an ordinary
boolean return. -/
inductive OpResult where
  | exc
  | ret (b : Bool)
  deriving DecidableEq, Repr

/-- The create-time stamping loop of TMongoObject::create (lines 72-84):
every created_at/updated_at/modified_at property (by lower-cased name) is
set to the current timestamp, every lock_revision property to 1. -/
def createStamp (now : Nat) (fs : List FieldE) : List FieldE :=
  fs.map (fun f =>
    let prop := strLower f.name
    if prop == "created_at" || prop == "updated_at" || prop == "modified_at" then
      { f with value := .vTime now }
    else if prop == "lock_revision" then
      { f with value := .vInt 1 }
    else f)

/-- Result of create: how it returned, the record afterwards, and the
document handed to mongo.insert (insert takes no criteria — there is no
lock predicate on create). -/
structure CreateOut where
  result : OpResult
  obj : MongoObject
  sentDoc : Doc
  deriving DecidableEq, Repr

/-- TMongoObject::create (lines 69-94). `now` stands for
QDateTime::currentDateTime(). The store call `mongo.insert(*this)` and the
generated identity are external; modelled from the spec: "on success,
re-sync typed fields from the store's returned document (to capture
generated identity)" — on success the returned document is the sent one
with the generated `_id` added, and syncToObject reflects it. -/
def MongoObject.create (o : MongoObject) (now : Nat) (store : StoreResult)
    (newId : Nat) : CreateOut :=
  let o1 := syncToVariantMap { o with fields := createStamp now o.fields }
  if store.ret then
    let o2 := { o1 with doc := docInsert o1.doc "_id" (.vId newId), objId := some newId }
    ⟨.ret true, syncToObject o2, o1.doc⟩
  else
    ⟨.ret false, o1, o1.doc⟩

/-- The property loop of TMongoObject::update (lines 106-134): the first
updated_at/modified_at property is set to the timestamp (`updflag`), the
first lock_revision property is incremented and its old value recorded in
the criteria (`hasRev` plays revIndex's role); a revision that does not
convert to an int or is not positive aborts — `err` carries the property
list exactly as already mutated at the early return. -/
def updFields (now : Nat) :
    List FieldE → Bool → Bool → Doc → Except (List FieldE) (List FieldE × Bool × Doc)
  | [], _, hasRev, cri => .ok ([], hasRev, cri)
  | f :: fs, updflag, hasRev, cri =>
    if !updflag && isTsName f then
      let f' := { f with value := .vTime now }
      match updFields now fs true hasRev cri with
      | .ok (fs', r, c) => .ok (f' :: fs', r, c)
      | .error fs' => .error (f' :: fs')
    else if !hasRev && isRevName f then
      match f.value.toInt? with
      | none => .error (f :: fs)
      | some oldRev =>
        if oldRev ≤ 0 then .error (f :: fs)
        else
          let f' := { f with value := .vInt (oldRev + 1) }
          match updFields now fs updflag true (docInsert cri f.name (.vInt oldRev)) with
          | .ok (fs', r, c) => .ok (f' :: fs', r, c)
          | .error fs' => .error (f' :: fs')
    else
      match updFields now fs updflag hasRev cri with
      | .ok (fs', r, c) => .ok (f :: fs', r, c)
      | .error fs' => .error (f :: fs')

/-- Result of update: how it returned, the record afterwards, and the
criteria sent to mongo.update (`none` when no store call was made). -/
structure UpdateOut where
  result : OpResult
  obj : MongoObject
  sent : Option Doc
  deriving DecidableEq, Repr

/-- TMongoObject::update (lines 97-149): fail fast when null; run the
stamping/revision loop; add `_id` to the criteria; re-sync the map; call
the store; throw KvsException when a revision participated and the
affected count is not 1, else return the store's boolean. -/
def MongoObject.update (o : MongoObject) (now : Nat) (store : StoreResult) : UpdateOut :=
  if o.isNull then ⟨.ret false, o, none⟩
  else
    match updFields now o.fields false false [] with
    | .error fs' => ⟨.ret false, { o with fields := fs' }, none⟩
    | .ok (fs', hasRev, cri) =>
      let cri := docInsert cri "_id" o.objectId
      let o' := syncToVariantMap { o with fields := fs' }
      if hasRev && store.numAffected != 1 then ⟨.exc, o', some cri⟩
      else ⟨.ret store.ret, o', some cri⟩

/-- The property loop of TMongoObject::remove (lines 161-180): find the
first lock_revision property; abort when its value does not convert to a
positive int; otherwise report its name and value (the loop breaks there
and mutates nothing). -/
def remFields : List FieldE → Except Unit (Option (String × Int))
  | [] => .ok none
  | f :: fs =>
    if isRevName f then
      match f.value.toInt? with
      | none => .error ()
      | some rev => if rev ≤ 0 then .error () else .ok (some (f.name, rev))
    else remFields fs

/-- Result of remove: how it returned, the record afterwards, the criteria
sent to mongo.remove (`none` when no store call was made), and whether the
non-fatal warning was logged. -/
structure RemoveOut where
  result : OpResult
  obj : MongoObject
  sent : Option Doc
  warned : Bool
  deriving DecidableEq, Repr

/-- TMongoObject::remove (lines 152-198): fail fast when null; build the
criteria from the first revision property (if any) plus `_id`; call the
store; unconditionally clear the map; when the affected count is not 1,
throw KvsException if a revision participated, else only warn; return the
store's boolean. -/
def MongoObject.remove (o : MongoObject) (store : StoreResult) : RemoveOut :=
  if o.isNull then ⟨.ret false, o, none, false⟩
  else
    match remFields o.fields with
    | .error _ => ⟨.ret false, o, none, false⟩
    | .ok revInfo =>
      let cri : Doc :=
        match revInfo with
        | some (nm, rev) => docInsert [] nm (.vInt rev)
        | none => []
      let cri := docInsert cri "_id" o.objectId
      let o' := { o with doc := [] }
      if store.numAffected != 1 then
        match revInfo with
        | some _ => ⟨.exc, o', some cri, false⟩
        | none => ⟨.ret store.ret, o', some cri, true⟩
      else ⟨.ret store.ret, o', some cri, false⟩

/-- TMongoObject::reload (lines 201-209): false when null, otherwise
re-sync the properties from the map and return true. -/
def MongoObject.reload (o : MongoObject) : Bool × MongoObject :=
  if o.isNull then (false, o)
  else (true, syncToObject o)

/-- The first updated_at/modified_at-classified property set to the
timestamp, everything after it untouched — the shape of the mutation
update() performs on timestamp properties. -/
def stampFirstTs (now : Nat) : List FieldE → List FieldE
  | [] => []
  | f :: fs =>
    if isTsName f then { f with value := .vTime now } :: fs
    else f :: stampFirstTs now fs

/-- The declared names of a property list. -/
def fieldNames (fs : List FieldE) : List String := fs.map FieldE.name

/-- A property list viewed as the document syncToVariantMap builds from it
(when names are unique). -/
def fieldsDoc (fs : List FieldE) : Doc := fs.map (fun f => (f.name, f.value))

/-- The property list an updFields outcome carries, on either branch. -/
def exFields : Except (List FieldE) (List FieldE × Bool × Doc) → List FieldE
  | .error e => e
  | .ok (fs, _, _) => fs

theorem syncToVariantMap_fields (o : MongoObject) : (syncToVariantMap o).fields = o.fields := rfl

theorem syncToObject_doc (o : MongoObject) : (syncToObject o).doc = o.doc := rfl

theorem isTsName_false_of_rev {f : FieldE} (h : isRevName f = true) : isTsName f = false := by
  have h' : strLower f.name = "lock_revision" := by simpa [isRevName] using h
  simp [isTsName, h']

theorem rev_name_ne_id {f : FieldE} (h : isRevName f = true) : f.name ≠ "_id" := by
  intro hEq
  rw [isRevName, hEq] at h
  exact absurd h (by decide)

theorem isRevName_false_of_ts {f : FieldE} (h : isTsName f = true) : isRevName f = false := by
  cases hr : isRevName f with
  | false => rfl
  | true => rw [isTsName_false_of_rev hr] at h; exact absurd h (by decide)

theorem map_id_of_all {α : Type} (f : α → α) :
    ∀ (l : List α), (∀ a ∈ l, f a = a) → l.map f = l := by
  intro l
  induction l with
  | nil => intro _; rfl
  | cons x xs ih =>
    intro h
    simp only [List.map_cons, h x (List.mem_cons_self x xs),
      ih (fun a ha => h a (List.mem_cons_of_mem x ha))]

theorem snakeGo_false (cs : List Char) :
    snakeGo false cs =
      cs.flatMap (fun d => if d.isUpper then ['_', d.toLower] else [d.toLower]) := by
  induction cs with
  | nil => rfl
  | cons c cs ih => by_cases h : c.isUpper <;> simp [snakeGo, h, ih]

/-- C7: the collection name is derived by inserting `_` before every
upper-case letter that is not the first character, lower-casing every
letter, then stripping a trailing `_object`; in particular
"UserAccountObject" ↦ "user_account", "Order" ↦ "order", and
"HTTPLogObject" ↦ "h_t_t_p_log" (per-uppercase-letter, not acronym-aware).
The derivation is a pure function of the type name. -/
theorem collectionName_correct :
    (∀ s : String, collectionName s = collectionNameSpec s)
    ∧ collectionName "UserAccountObject" = "user_account"
    ∧ collectionName "Order" = "order"
    ∧ collectionName "HTTPLogObject" = "h_t_t_p_log" := by
  refine ⟨?_, by decide, by decide, by decide⟩
  intro s
  unfold collectionName collectionNameSpec
  cases h : s.data with
  | nil => rfl
  | cons c rest => simp [snakeGo, snakeGo_false]

/-- C8: on a New record (identity absent), update(), remove() and reload()
each return false immediately, send nothing to the store, and leave the
record's fields and document unchanged. -/
theorem new_record_ops_fail_fast (o : MongoObject) (now : Nat) (store : StoreResult)
    (h : o.isNull = true) :
    o.update now store = ⟨.ret false, o, none⟩
    ∧ o.remove store = ⟨.ret false, o, none, false⟩
    ∧ o.reload = (false, o) := by
  unfold MongoObject.update MongoObject.remove MongoObject.reload
  simp [h]

/-- A sample record without identity, used to witness the New-record claim. -/
def oNew : MongoObject :=
  ⟨"BlogObject", [⟨"title", .vStr "t"⟩, ⟨"lock_revision", .vInt 4⟩], [("title", .vStr "t")], none⟩

theorem new_record_ops_fail_fast_witness :
    oNew.isNull = true
    ∧ (oNew.update 5 ⟨true, 1⟩ = ⟨.ret false, oNew, none⟩
       ∧ oNew.remove ⟨true, 1⟩ = ⟨.ret false, oNew, none, false⟩
       ∧ oNew.reload = (false, oNew)) :=
  ⟨by decide, new_record_ops_fail_fast oNew 5 ⟨true, 1⟩ (by decide)⟩

theorem remFields_append (xs rest : List FieldE) (h : ∀ f ∈ xs, isRevName f = false) :
    remFields (xs ++ rest) = remFields rest := by
  induction xs with
  | nil => rfl
  | cons f xs ih =>
    have hf : isRevName f = false := h f (List.mem_cons_self f xs)
    simp only [List.cons_append, remFields, hf, Bool.false_eq_true, if_false]
    exact ih (fun g hg => h g (List.mem_cons_of_mem f hg))

theorem remFields_valid (r : FieldE) (ys : List FieldE) (n : Int)
    (hr : isRevName r = true) (hn : r.value.toInt? = some n) (hpos : 0 < n) :
    remFields (r :: ys) = .ok (some (r.name, n)) := by
  simp only [remFields, hr, if_true, hn]
  rw [if_neg (by omega)]

theorem remFields_invalid (r : FieldE) (ys : List FieldE)
    (hr : isRevName r = true) (hbad : ∀ m, r.value.toInt? = some m → m ≤ 0) :
    remFields (r :: ys) = .error () := by
  simp only [remFields, hr, if_true]
  cases hv : r.value.toInt? with
  | none => rfl
  | some m => simp [hbad m hv]

/-- C3: remove() on a non-New record whose first lock_revision field holds
a valid positive revision sends the revision and the identity as the lock
predicate, clears the record's document unconditionally — also on the path
that raises — and raises KvsException (the ConcurrencyConflict) exactly
when the store's affected count differs from 1. -/
theorem remove_conflict_raises_and_clears (o : MongoObject) (store : StoreResult)
    (xs ys : List FieldE) (r : FieldE) (n : Int)
    (hnull : o.isNull = false)
    (hf : o.fields = xs ++ r :: ys)
    (hxs : ∀ f ∈ xs, isRevName f = false)
    (hr : isRevName r = true)
    (hn : r.value.toInt? = some n) (hpos : 0 < n) :
    (o.remove store).obj = { o with doc := [] }
    ∧ (o.remove store).sent = some [(r.name, .vInt n), ("_id", o.objectId)]
    ∧ (store.numAffected ≠ 1 → (o.remove store).result = .exc)
    ∧ (store.numAffected = 1 → (o.remove store).result = .ret store.ret) := by
  unfold MongoObject.remove
  rw [hf, remFields_append xs (r :: ys) hxs, remFields_valid r ys n hr hn hpos]
  have hne : (r.name != "_id") = true := by
    simp [bne_iff_ne, rev_name_ne_id hr]
  by_cases ha : store.numAffected = 1 <;>
    simp [hnull, ha, docInsert, hne]

/-- A persisted sample record carrying a revision field, for witnesses. -/
def oRev : MongoObject :=
  ⟨"BlogObject",
   [⟨"title", .vStr "x"⟩, ⟨"updated_at", .vNull⟩, ⟨"lock_revision", .vInt 5⟩],
   [("title", .vStr "x")], some 9⟩

/-- The store reporting failure with zero documents affected. -/
def stGone : StoreResult := ⟨false, 0⟩

theorem remove_conflict_raises_and_clears_witness :
    (oRev.isNull = false
     ∧ oRev.fields = [⟨"title", .vStr "x"⟩, ⟨"updated_at", .vNull⟩] ++ ⟨"lock_revision", .vInt 5⟩ :: []
     ∧ isRevName ⟨"lock_revision", .vInt 5⟩ = true)
    ∧ ((oRev.remove stGone).obj = { oRev with doc := [] }
       ∧ (oRev.remove stGone).sent = some [("lock_revision", .vInt 5), ("_id", oRev.objectId)]
       ∧ (stGone.numAffected ≠ 1 → (oRev.remove stGone).result = .exc)
       ∧ (stGone.numAffected = 1 → (oRev.remove stGone).result = .ret stGone.ret)) :=
  ⟨⟨by decide, by decide, by decide⟩,
   remove_conflict_raises_and_clears oRev stGone
     [⟨"title", .vStr "x"⟩, ⟨"updated_at", .vNull⟩] [] ⟨"lock_revision", .vInt 5⟩ 5
     (by decide) (by decide) (by decide) (by decide) (by decide) (by decide)⟩

/-- C4: remove() on a non-New record that has no revision field never
raises: it returns the store's boolean outcome, clears the record's
document, sends only the identity as predicate, and logs the non-fatal
warning exactly when the affected count differs from 1. -/
theorem remove_no_rev_warns (o : MongoObject) (store : StoreResult)
    (hnull : o.isNull = false)
    (hnone : ∀ f ∈ o.fields, isRevName f = false) :
    (o.remove store).result = .ret store.ret
    ∧ (o.remove store).obj = { o with doc := [] }
    ∧ (o.remove store).warned = (store.numAffected != 1)
    ∧ (o.remove store).sent = some [("_id", o.objectId)] := by
  unfold MongoObject.remove
  have hrem : remFields o.fields = .ok none := by
    have h3 := remFields_append o.fields [] hnone
    simpa [remFields] using h3
  rw [hrem]
  by_cases ha : store.numAffected = 1 <;>
    simp [hnull, ha, docInsert]

/-- A persisted sample record with no revision field, for witnesses. -/
def oPlain : MongoObject :=
  ⟨"BlogObject", [⟨"title", .vStr "x"⟩, ⟨"body", .vStr "y"⟩], [("title", .vStr "x")], some 9⟩

theorem remove_no_rev_warns_witness :
    (oPlain.isNull = false ∧ ∀ f ∈ oPlain.fields, isRevName f = false)
    ∧ ((oPlain.remove stGone).result = .ret stGone.ret
       ∧ (oPlain.remove stGone).obj = { oPlain with doc := [] }
       ∧ (oPlain.remove stGone).warned = (stGone.numAffected != 1)
       ∧ (oPlain.remove stGone).sent = some [("_id", oPlain.objectId)]) :=
  ⟨⟨by decide, by decide⟩, remove_no_rev_warns oPlain stGone (by decide) (by decide)⟩

theorem stampFirstTs_not_ts (now : Nat) (fs : List FieldE)
    (h : ∀ f ∈ fs, isTsName f = false) : stampFirstTs now fs = fs := by
  induction fs with
  | nil => rfl
  | cons f fs ih =>
    have hf := h f (List.mem_cons_self f fs)
    simp only [stampFirstTs, hf, Bool.false_eq_true, if_false]
    rw [ih (fun g hg => h g (List.mem_cons_of_mem f hg))]

theorem stampFirstTs_append (now : Nat) (xs ys : List FieldE) :
    stampFirstTs now (xs ++ ys) =
      if xs.any isTsName then stampFirstTs now xs ++ ys
      else xs ++ stampFirstTs now ys := by
  induction xs with
  | nil => simp
  | cons f xs ih =>
    by_cases h : isTsName f = true
    · simp [stampFirstTs, h]
    · have h' : isTsName f = false := by simpa using h
      by_cases hany : xs.any isTsName = true <;>
        simp [stampFirstTs, h', hany, ih]

theorem updFields_hasRev (now : Nat) :
    ∀ (ys : List FieldE) (u : Bool) (cri : Doc),
    updFields now ys u true cri = .ok ((if u then ys else stampFirstTs now ys), true, cri) := by
  intro ys
  induction ys with
  | nil => intro u cri; cases u <;> simp [updFields, stampFirstTs]
  | cons f ys ih =>
    intro u cri
    cases u <;> cases hts : isTsName f <;>
      simp [updFields, hts, stampFirstTs, ih]

theorem updFields_append_ok (now : Nat) (rest fs' : List FieldE) (rv : Bool) (c : Doc) :
    ∀ (xs : List FieldE) (u : Bool) (cri : Doc),
    (∀ f ∈ xs, isRevName f = false) →
    updFields now rest (u || xs.any isTsName) false cri = .ok (fs', rv, c) →
    updFields now (xs ++ rest) u false cri =
      .ok ((if u then xs else stampFirstTs now xs) ++ fs', rv, c) := by
  intro xs
  induction xs with
  | nil => intro u cri _ hrest; simpa [stampFirstTs] using hrest
  | cons f xs ih =>
    intro u cri hxs hrest
    have hfrev : isRevName f = false := hxs f (List.mem_cons_self f xs)
    have hxs' : ∀ g ∈ xs, isRevName g = false := fun g hg => hxs g (List.mem_cons_of_mem f hg)
    cases u <;> cases hts : isTsName f
    · have h2 := ih false cri hxs' (by simpa [hts] using hrest)
      simp [updFields, hts, hfrev, stampFirstTs, h2]
    · have h2 := ih true cri hxs' (by simpa [hts] using hrest)
      simp [updFields, hts, hfrev, stampFirstTs, h2]
    · have h2 := ih true cri hxs' (by simpa [hts] using hrest)
      simp [updFields, hts, hfrev, stampFirstTs, h2]
    · have h2 := ih true cri hxs' (by simpa [hts] using hrest)
      simp [updFields, hts, hfrev, stampFirstTs, h2]

theorem updFields_append_error (now : Nat) (rest fs' : List FieldE) :
    ∀ (xs : List FieldE) (u : Bool) (cri : Doc),
    (∀ f ∈ xs, isRevName f = false) →
    updFields now rest (u || xs.any isTsName) false cri = .error fs' →
    updFields now (xs ++ rest) u false cri =
      .error ((if u then xs else stampFirstTs now xs) ++ fs') := by
  intro xs
  induction xs with
  | nil => intro u cri _ hrest; simpa [stampFirstTs] using hrest
  | cons f xs ih =>
    intro u cri hxs hrest
    have hfrev : isRevName f = false := hxs f (List.mem_cons_self f xs)
    have hxs' : ∀ g ∈ xs, isRevName g = false := fun g hg => hxs g (List.mem_cons_of_mem f hg)
    cases u <;> cases hts : isTsName f
    · have h2 := ih false cri hxs' (by simpa [hts] using hrest)
      simp [updFields, hts, hfrev, stampFirstTs, h2]
    · have h2 := ih true cri hxs' (by simpa [hts] using hrest)
      simp [updFields, hts, hfrev, stampFirstTs, h2]
    · have h2 := ih true cri hxs' (by simpa [hts] using hrest)
      simp [updFields, hts, hfrev, stampFirstTs, h2]
    · have h2 := ih true cri hxs' (by simpa [hts] using hrest)
      simp [updFields, hts, hfrev, stampFirstTs, h2]

theorem updFields_rev_valid (now : Nat) (r : FieldE) (ys : List FieldE) (n : Int)
    (hr : isRevName r = true) (hn : r.value.toInt? = some n) (hpos : 0 < n) :
    ∀ (u : Bool) (cri : Doc),
    updFields now (r :: ys) u false cri =
      .ok ({ r with value := .vInt (n + 1) } :: (if u then ys else stampFirstTs now ys),
           true, docInsert cri r.name (.vInt n)) := by
  intro u cri
  have hts := isTsName_false_of_rev hr
  have hng : ¬ n ≤ 0 := by omega
  cases u <;> simp [updFields, hts, hr, hn, hng, updFields_hasRev]

theorem updFields_rev_invalid (now : Nat) (r : FieldE) (ys : List FieldE)
    (hr : isRevName r = true) (hbad : ∀ m, r.value.toInt? = some m → m ≤ 0) :
    ∀ (u : Bool) (cri : Doc),
    updFields now (r :: ys) u false cri = .error (r :: ys) := by
  intro u cri
  have hts := isTsName_false_of_rev hr
  cases hv : r.value.toInt? with
  | none => cases u <;> simp [updFields, hts, hr, hv]
  | some m => cases u <;> simp [updFields, hts, hr, hv, hbad m hv]

theorem update_char_ok (o : MongoObject) (now : Nat) (store : StoreResult)
    (xs ys : List FieldE) (r : FieldE) (n : Int)
    (hnull : o.isNull = false)
    (hf : o.fields = xs ++ r :: ys)
    (hxs : ∀ f ∈ xs, isRevName f = false)
    (hr : isRevName r = true)
    (hn : r.value.toInt? = some n) (hpos : 0 < n) :
    o.update now store =
      ⟨(if store.numAffected = 1 then .ret store.ret else .exc),
       syncToVariantMap
         { o with fields := stampFirstTs now (xs ++ { r with value := .vInt (n + 1) } :: ys) },
       some [(r.name, .vInt n), ("_id", o.objectId)]⟩ := by
  have hts2 : isTsName { r with value := MValue.vInt (n + 1) } = false :=
    isTsName_false_of_rev hr
  have hup : updFields now (xs ++ r :: ys) false false [] =
      .ok (stampFirstTs now (xs ++ { r with value := MValue.vInt (n + 1) } :: ys), true,
           [(r.name, MValue.vInt n)]) := by
    have hrest := updFields_rev_valid now r ys n hr hn hpos (xs.any isTsName) []
    have h2 := updFields_append_ok now (r :: ys) _ _ _ xs false [] hxs
      (by simpa only [Bool.false_or] using hrest)
    rw [h2]
    by_cases hany : xs.any isTsName = true
    · simp [stampFirstTs_append, hany, docInsert, -List.any_eq_true]
    · have hanyf : xs.any isTsName = false := by simpa using hany
      have hall : ∀ f ∈ xs, isTsName f = false := by
        intro f hfm
        by_contra hc
        have ht : isTsName f = true := by simpa using hc
        have := List.any_eq_true.mpr ⟨f, hfm, ht⟩
        rw [this] at hanyf
        exact absurd hanyf (by decide)
      simp [stampFirstTs_append, hanyf, docInsert,
        stampFirstTs_not_ts now xs hall, stampFirstTs, hts2, -List.any_eq_true]
  have hne : (r.name != "_id") = true := by
    simp [bne_iff_ne, rev_name_ne_id hr]
  unfold MongoObject.update
  rw [hf, hup]
  by_cases ha : store.numAffected = 1 <;>
    simp [hnull, ha, docInsert, hne, bne_iff_ne]

/-- C1: on a non-New record whose first lock_revision field (no earlier
field classifies as revision) holds a positive integer n, update() mutates
the fields exactly by stamping the first updated_at/modified_at field (at
most one, as stampFirstTs touches only the first) and incrementing that
revision field to n+1, and sends the store a lock predicate holding the
revision field at its pre-increment value n and the record's identity. -/
theorem update_stamps_first_and_locks (o : MongoObject) (now : Nat) (store : StoreResult)
    (xs ys : List FieldE) (r : FieldE) (n : Int)
    (hnull : o.isNull = false)
    (hf : o.fields = xs ++ r :: ys)
    (hxs : ∀ f ∈ xs, isRevName f = false)
    (hr : isRevName r = true)
    (hn : r.value.toInt? = some n) (hpos : 0 < n) :
    (o.update now store).obj.fields =
        stampFirstTs now (xs ++ { r with value := .vInt (n + 1) } :: ys)
    ∧ (o.update now store).sent = some [(r.name, .vInt n), ("_id", o.objectId)] := by
  rw [update_char_ok o now store xs ys r n hnull hf hxs hr hn hpos]
  exact ⟨rfl, rfl⟩

/-- The store reporting success with exactly one document affected. -/
def stOK : StoreResult := ⟨true, 1⟩

theorem update_stamps_first_and_locks_witness :
    (oRev.isNull = false ∧ isRevName ⟨"lock_revision", .vInt 5⟩ = true)
    ∧ ((oRev.update 100 stOK).obj.fields =
          stampFirstTs 100
            ([⟨"title", .vStr "x"⟩, ⟨"updated_at", .vNull⟩] ++
              (⟨"lock_revision", .vInt (5 + 1)⟩ : FieldE) :: [])
       ∧ (oRev.update 100 stOK).sent =
          some [("lock_revision", .vInt 5), ("_id", oRev.objectId)]) :=
  ⟨⟨by decide, by decide⟩,
   update_stamps_first_and_locks oRev 100 stOK
     [⟨"title", .vStr "x"⟩, ⟨"updated_at", .vNull⟩] [] ⟨"lock_revision", .vInt 5⟩ 5
     (by decide) (by decide) (by decide) (by decide) (by decide) (by decide)⟩

/-- C2: on a non-New record where update() used a revision field in the
lock predicate, an affected count different from 1 makes update() raise
KvsException (the ConcurrencyConflict — a distinct catchable failure, not
a boolean false); otherwise update() returns the store's boolean outcome. -/
theorem update_conflict_raises (o : MongoObject) (now : Nat) (store : StoreResult)
    (xs ys : List FieldE) (r : FieldE) (n : Int)
    (hnull : o.isNull = false)
    (hf : o.fields = xs ++ r :: ys)
    (hxs : ∀ f ∈ xs, isRevName f = false)
    (hr : isRevName r = true)
    (hn : r.value.toInt? = some n) (hpos : 0 < n) :
    (store.numAffected ≠ 1 → (o.update now store).result = .exc)
    ∧ (store.numAffected = 1 → (o.update now store).result = .ret store.ret) := by
  rw [update_char_ok o now store xs ys r n hnull hf hxs hr hn hpos]
  constructor <;> intro h <;> simp [h]

theorem update_conflict_raises_witness :
    (oRev.isNull = false ∧ isRevName ⟨"lock_revision", .vInt 5⟩ = true)
    ∧ ((stGone.numAffected ≠ 1 → (oRev.update 100 stGone).result = .exc)
       ∧ (stGone.numAffected = 1 → (oRev.update 100 stGone).result = .ret stGone.ret)) :=
  ⟨⟨by decide, by decide⟩,
   update_conflict_raises oRev 100 stGone
     [⟨"title", .vStr "x"⟩, ⟨"updated_at", .vNull⟩] [] ⟨"lock_revision", .vInt 5⟩ 5
     (by decide) (by decide) (by decide) (by decide) (by decide) (by decide)⟩

/-- C5: on a non-New record whose first lock_revision field does not hold
a positive integer, update() and remove() both return false (they do not
throw) and no criteria are ever sent to the store; remove() additionally
leaves the record completely unchanged. -/
theorem invalid_revision_fails_before_store (o : MongoObject) (now : Nat) (store : StoreResult)
    (xs ys : List FieldE) (r : FieldE)
    (hnull : o.isNull = false)
    (hf : o.fields = xs ++ r :: ys)
    (hxs : ∀ f ∈ xs, isRevName f = false)
    (hr : isRevName r = true)
    (hbad : ∀ m, r.value.toInt? = some m → m ≤ 0) :
    ((o.update now store).result = .ret false ∧ (o.update now store).sent = none)
    ∧ o.remove store = ⟨.ret false, o, none, false⟩ := by
  constructor
  · have h1 := updFields_rev_invalid now r ys hr hbad (xs.any isTsName) []
    have h2 := updFields_append_error now (r :: ys) _ xs false [] hxs (by simpa using h1)
    unfold MongoObject.update
    rw [hf, h2]
    simp [hnull]
  · unfold MongoObject.remove
    rw [hf, remFields_append xs (r :: ys) hxs, remFields_invalid r ys hr hbad]
    simp [hnull]

/-- A persisted sample record whose revision value 0 is not positive. -/
def oBadRev : MongoObject :=
  ⟨"BlogObject", [⟨"updated_at", .vNull⟩, ⟨"lock_revision", .vInt 0⟩], [], some 7⟩

theorem invalid_revision_fails_before_store_witness :
    (oBadRev.isNull = false ∧ isRevName ⟨"lock_revision", .vInt 0⟩ = true)
    ∧ (((oBadRev.update 100 stOK).result = .ret false
        ∧ (oBadRev.update 100 stOK).sent = none)
       ∧ oBadRev.remove stOK = ⟨.ret false, oBadRev, none, false⟩) :=
  ⟨⟨by decide, by decide⟩,
   invalid_revision_fails_before_store oBadRev 100 stOK
     [⟨"updated_at", .vNull⟩] [] ⟨"lock_revision", .vInt 0⟩
     (by decide) (by decide) (by decide) (by decide)
     (fun m hm => by simp [MValue.toInt?] at hm; omega)⟩

/-- C10: on a non-New record where an updated_at/modified_at field
precedes the first lock_revision field and that revision is not a positive
integer, update() returns false with no store call, but the timestamp
field has already been set to the current time — the failed update is not
rolled back. -/
theorem update_failed_keeps_timestamp (o : MongoObject) (now : Nat) (store : StoreResult)
    (as bs ys : List FieldE) (u r : FieldE)
    (hnull : o.isNull = false)
    (hf : o.fields = as ++ u :: (bs ++ r :: ys))
    (has : ∀ f ∈ as, isTsName f = false ∧ isRevName f = false)
    (hu : isTsName u = true)
    (hbs : ∀ f ∈ bs, isRevName f = false)
    (hr : isRevName r = true)
    (hbad : ∀ m, r.value.toInt? = some m → m ≤ 0) :
    o.update now store =
      ⟨.ret false,
       { o with fields := as ++ { u with value := .vTime now } :: (bs ++ r :: ys) },
       none⟩ := by
  have hanyf : as.any isTsName = false := by
    rw [List.any_eq_false]
    intro f hfm
    simp [(has f hfm).1]
  have hstamp : stampFirstTs now as = as :=
    stampFirstTs_not_ts now as (fun f hfm => (has f hfm).1)
  have h1 := updFields_rev_invalid now r ys hr hbad true []
  have h2 := updFields_append_error now (r :: ys) _ bs true [] hbs (by simpa using h1)
  have h3 : updFields now (u :: (bs ++ r :: ys)) false false [] =
      .error ({ u with value := .vTime now } :: (bs ++ r :: ys)) := by
    simp [updFields, hu, h2]
  have h4 := updFields_append_error now (u :: (bs ++ r :: ys)) _ as false []
    (fun f hfm => (has f hfm).2) (by simpa [hanyf] using h3)
  have h5 : updFields now (as ++ u :: (bs ++ r :: ys)) false false [] =
      .error (as ++ { u with value := .vTime now } :: (bs ++ r :: ys)) := by
    simpa [hstamp] using h4
  unfold MongoObject.update
  rw [hf, h5]
  simp [hnull]

/-- A persisted sample record whose updated_at precedes an unconvertible
revision value. -/
def oTsBadRev : MongoObject :=
  ⟨"BlogObject", [⟨"updated_at", .vNull⟩, ⟨"lock_revision", .vNull⟩], [], some 7⟩

theorem update_failed_keeps_timestamp_witness :
    (oTsBadRev.isNull = false ∧ isTsName ⟨"updated_at", .vNull⟩ = true
     ∧ isRevName ⟨"lock_revision", .vNull⟩ = true)
    ∧ oTsBadRev.update 100 stOK =
        ⟨.ret false,
         { oTsBadRev with fields :=
             [] ++ (⟨"updated_at", .vTime 100⟩ : FieldE) ::
               ([] ++ (⟨"lock_revision", .vNull⟩ : FieldE) :: []) },
         none⟩ :=
  ⟨⟨by decide, by decide, by decide⟩,
   update_failed_keeps_timestamp oTsBadRev 100 stOK
     [] [] [] ⟨"updated_at", .vNull⟩ ⟨"lock_revision", .vNull⟩
     (by decide) (by decide) (by decide) (by decide) (by decide) (by decide)
     (fun m hm => by simp [MValue.toInt?] at hm)⟩

theorem filter_ne_key (d : Doc) (k : String) (h : ∀ p ∈ d, p.1 ≠ k) :
    d.filter (fun p => p.1 != k) = d :=
  List.filter_eq_self.mpr (fun p hp => by simp [bne_iff_ne, h p hp])

theorem foldl_docInsert_eq (fs : List FieldE) :
    ∀ acc : Doc, (∀ p ∈ acc, ∀ g ∈ fs, p.1 ≠ g.name) → (fieldNames fs).Nodup →
    fs.foldl (fun d f => docInsert d f.name f.value) acc = acc ++ fieldsDoc fs := by
  induction fs with
  | nil => intro acc _ _; simp [fieldsDoc]
  | cons f fs ih =>
    intro acc hacc hnd
    have hsplit : f.name ∉ List.map FieldE.name fs ∧ (List.map FieldE.name fs).Nodup := by
      simpa [fieldNames] using hnd
    simp only [List.foldl_cons]
    have hstep : docInsert acc f.name f.value = acc ++ [(f.name, f.value)] := by
      unfold docInsert
      rw [filter_ne_key acc f.name (fun p hp => hacc p hp f (List.mem_cons_self f fs))]
    rw [hstep, ih (acc ++ [(f.name, f.value)]) ?_ hsplit.2]
    · simp [fieldsDoc]
    · intro p hp g hg
      rcases List.mem_append.mp hp with h1 | h2
      · exact hacc p h1 g (List.mem_cons_of_mem f hg)
      · have hp2 : p.1 = f.name := by
          have hpe : p = (f.name, f.value) := by simpa using h2
          rw [hpe]
        rw [hp2]
        intro he
        exact hsplit.1 (by rw [he]; exact List.mem_map_of_mem FieldE.name hg)

theorem svMap_doc (o : MongoObject) (hnd : (fieldNames o.fields).Nodup) :
    (syncToVariantMap o).doc = fieldsDoc o.fields := by
  unfold syncToVariantMap
  simpa using foldl_docInsert_eq o.fields [] (by simp) hnd

theorem fields_pair_consistent (fs : List FieldE) (hnd : (fieldNames fs).Nodup) :
    ∀ p ∈ fieldsDoc fs, ∀ f ∈ fs, f.name = p.1 → f.value = p.2 := by
  induction fs with
  | nil => simp [fieldsDoc]
  | cons g fs ih =>
    have hsplit : g.name ∉ List.map FieldE.name fs ∧ (List.map FieldE.name fs).Nodup := by
      simpa [fieldNames] using hnd
    intro p hp f hf hname
    have hp' : p = (g.name, g.value) ∨ p ∈ fieldsDoc fs := by simpa [fieldsDoc] using hp
    have hf' : f = g ∨ f ∈ fs := by simpa using hf
    rcases hp' with he | hmem
    · rcases hf' with hfg | hfs
      · rw [hfg, he]
      · exfalso
        rw [he] at hname
        have hname' : f.name = g.name := by simpa using hname
        exact hsplit.1 (by rw [← hname']; exact List.mem_map_of_mem FieldE.name hfs)
    · have hp1 : p.1 ∈ List.map FieldE.name fs := by
        rcases List.mem_map.mp (by simpa [fieldsDoc] using hmem) with ⟨f', hf'mem, he'⟩
        rw [← he']
        exact List.mem_map_of_mem FieldE.name hf'mem
      rcases hf' with hfg | hfs
      · exfalso
        rw [hfg] at hname
        exact hsplit.1 (by rw [hname]; exact hp1)
      · exact ih hsplit.2 p hmem f hfs hname

theorem getProp_of_pair (fs : List FieldE) (hnd : (fieldNames fs).Nodup) :
    ∀ p ∈ fieldsDoc fs, getProp fs p.1 = some p.2 := by
  induction fs with
  | nil => simp [fieldsDoc]
  | cons g fs ih =>
    have hsplit : g.name ∉ List.map FieldE.name fs ∧ (List.map FieldE.name fs).Nodup := by
      simpa [fieldNames] using hnd
    intro p hp
    have hp' : p = (g.name, g.value) ∨ p ∈ fieldsDoc fs := by simpa [fieldsDoc] using hp
    rcases hp' with he | hmem
    · rw [he]
      simp [getProp]
    · have hp1 : p.1 ∈ List.map FieldE.name fs := by
        rcases List.mem_map.mp (by simpa [fieldsDoc] using hmem) with ⟨f', hf'mem, he'⟩
        rw [← he']
        exact List.mem_map_of_mem FieldE.name hf'mem
      have hgne : (g.name == p.1) = false := by
        simp only [beq_eq_false_iff_ne, ne_eq]
        intro he2
        exact hsplit.1 (he2 ▸ hp1)
      have := ih hsplit.2 p hmem
      simpa [getProp, List.find?, hgne] using this

theorem getProp_eq_none (fs : List FieldE) (k : String) (h : k ∉ fieldNames fs) :
    getProp fs k = none := by
  have hall : ∀ f ∈ fs, (f.name == k) = false := by
    intro f hf
    simp only [beq_eq_false_iff_ne, ne_eq]
    intro he
    exact h (he ▸ List.mem_map_of_mem FieldE.name hf)
  unfold getProp
  rw [List.find?_eq_none.mpr (fun f hf => by simp [hall f hf])]
  rfl

theorem setPropL_id (fs : List FieldE) (k : String) (v : MValue)
    (h : ∀ f ∈ fs, f.name = k → f.value = v) : setPropL fs k v = fs := by
  unfold setPropL
  apply map_id_of_all
  intro f hf
  by_cases he : f.name = k
  · rw [if_pos he, ← h f hf he]
  · rw [if_neg he]

theorem foldl_setPropL_id (d : Doc) (fs : List FieldE)
    (h : ∀ p ∈ d, ∀ f ∈ fs, f.name = p.1 → f.value = p.2) :
    d.foldl (fun fs p => setPropL fs p.1 p.2) fs = fs := by
  induction d with
  | nil => rfl
  | cons p d ih =>
    simp only [List.foldl_cons]
    rw [setPropL_id fs p.1 p.2 (fun f hf => h p (List.mem_cons_self p d) f hf)]
    exact ih (fun q hq f hf => h q (List.mem_cons_of_mem p hq) f hf)

theorem createStamp_names (now : Nat) (fs : List FieldE) :
    fieldNames (createStamp now fs) = fieldNames fs := by
  unfold createStamp fieldNames
  induction fs with
  | nil => rfl
  | cons f fs ih =>
    simp only [List.map_cons]
    rw [ih]
    congr 1
    split
    · rfl
    · split <;> rfl

theorem updFields_names (now : Nat) :
    ∀ (fs : List FieldE) (u h : Bool) (c : Doc),
    fieldNames (exFields (updFields now fs u h c)) = fieldNames fs := by
  intro fs
  induction fs with
  | nil => intro u h c; simp [updFields, exFields, fieldNames]
  | cons f fs ih =>
    intro u h c
    by_cases h1 : (!u && isTsName f) = true
    · cases hrec : updFields now fs true h c with
      | ok res =>
        obtain ⟨fs', r, c'⟩ := res
        have hih := ih true h c
        rw [hrec] at hih
        simp only [exFields, fieldNames] at hih
        simp [updFields, h1, hrec, exFields, fieldNames, hih]
      | error e =>
        have hih := ih true h c
        rw [hrec] at hih
        simp only [exFields, fieldNames] at hih
        simp [updFields, h1, hrec, exFields, fieldNames, hih]
    · by_cases h2 : (!h && isRevName f) = true
      · cases hv : f.value.toInt? with
        | none => simp [updFields, h1, h2, hv, exFields, fieldNames]
        | some m =>
          by_cases hm : m ≤ 0
          · simp [updFields, h1, h2, hv, hm, exFields, fieldNames]
          · cases hrec : updFields now fs u true (docInsert c f.name (.vInt m)) with
            | ok res =>
              obtain ⟨fs', r, c'⟩ := res
              have hih := ih u true (docInsert c f.name (.vInt m))
              rw [hrec] at hih
              simp only [exFields, fieldNames] at hih
              simp [updFields, h1, h2, hv, hm, hrec, exFields, fieldNames, hih]
            | error e =>
              have hih := ih u true (docInsert c f.name (.vInt m))
              rw [hrec] at hih
              simp only [exFields, fieldNames] at hih
              simp [updFields, h1, h2, hv, hm, hrec, exFields, fieldNames, hih]
      · cases hrec : updFields now fs u h c with
        | ok res =>
          obtain ⟨fs', r, c'⟩ := res
          have hih := ih u h c
          rw [hrec] at hih
          simp only [exFields, fieldNames] at hih
          simp [updFields, h1, h2, hrec, exFields, fieldNames, hih]
        | error e =>
          have hih := ih u h c
          rw [hrec] at hih
          simp only [exFields, fieldNames] at hih
          simp [updFields, h1, h2, hrec, exFields, fieldNames, hih]

theorem isModified_eq_false_of_doc (o' : MongoObject)
    (hcons : ∀ p ∈ o'.doc, getProp o'.fields p.1 = some p.2 ∨ getProp o'.fields p.1 = none) :
    isModified o' = false := by
  unfold isModified
  by_cases hnew : o'.isNew = true
  · simp [hnew]
  · have hnew' : o'.isNew = false := by simpa using hnew
    simp only [hnew', Bool.false_eq_true, if_false]
    rw [List.any_eq_false]
    intro p hp
    rcases hcons p hp with h | h <;> simp [h]

theorem isModified_syncToVariantMap (o' : MongoObject)
    (hnd : (fieldNames o'.fields).Nodup) :
    isModified (syncToVariantMap o') = false := by
  apply isModified_eq_false_of_doc
  intro p hp
  rw [svMap_doc o' hnd] at hp
  left
  exact getProp_of_pair o'.fields hnd p hp

theorem fieldsDoc_keys (fs : List FieldE) : (fieldsDoc fs).map Prod.fst = fieldNames fs := by
  unfold fieldsDoc fieldNames
  rw [List.map_map]
  rfl

theorem pair_fst_mem (fs : List FieldE) : ∀ p ∈ fieldsDoc fs, p.1 ∈ fieldNames fs := by
  intro p hp
  rcases List.mem_map.mp (by simpa [fieldsDoc] using hp) with ⟨f', hf', he'⟩
  rw [← he']
  exact List.mem_map_of_mem FieldE.name hf'

theorem create_sentDoc (o : MongoObject) (now : Nat) (store : StoreResult) (newId : Nat)
    (hnd : (fieldNames o.fields).Nodup) :
    (o.create now store newId).sentDoc = fieldsDoc (createStamp now o.fields) := by
  have hnd2 : (fieldNames (createStamp now o.fields)).Nodup := by
    rw [createStamp_names]; exact hnd
  unfold MongoObject.create
  by_cases hret : store.ret = true <;>
    simp [hret, svMap_doc { o with fields := createStamp now o.fields } hnd2]

/-- C6: create() sets every created_at/updated_at/modified_at field (by
lower-cased name) to the current timestamp and every lock_revision field
to 1, leaves every other field at its value, and hands the store a
document rebuilt from exactly the declared typed fields in declared order
— the insert carries no lock predicate (the modelled insert takes only
this document). -/
theorem create_stamps_and_inserts (o : MongoObject) (now : Nat) (store : StoreResult)
    (newId : Nat) (hnd : (fieldNames o.fields).Nodup) :
    (∀ f ∈ o.fields,
       ((strLower f.name = "created_at" ∨ strLower f.name = "updated_at"
           ∨ strLower f.name = "modified_at") →
          (f.name, MValue.vTime now) ∈ (o.create now store newId).sentDoc)
       ∧ (strLower f.name = "lock_revision" →
          (f.name, MValue.vInt 1) ∈ (o.create now store newId).sentDoc)
       ∧ ((strLower f.name ≠ "created_at" ∧ strLower f.name ≠ "updated_at"
            ∧ strLower f.name ≠ "modified_at" ∧ strLower f.name ≠ "lock_revision") →
          (f.name, f.value) ∈ (o.create now store newId).sentDoc))
    ∧ ((o.create now store newId).sentDoc).map Prod.fst = fieldNames o.fields := by
  rw [create_sentDoc o now store newId hnd]
  refine ⟨?_, by rw [fieldsDoc_keys, createStamp_names]⟩
  intro f hf
  refine ⟨?_, ?_, ?_⟩
  · intro h
    apply List.mem_map.mpr
    refine ⟨{ f with value := .vTime now }, ?_, rfl⟩
    apply List.mem_map.mpr
    refine ⟨f, hf, ?_⟩
    rcases h with h | h | h <;> simp [h]
  · intro h
    apply List.mem_map.mpr
    refine ⟨{ f with value := .vInt 1 }, ?_, rfl⟩
    apply List.mem_map.mpr
    refine ⟨f, hf, ?_⟩
    simp [h]
  · intro ⟨h1, h2, h3, h4⟩
    apply List.mem_map.mpr
    refine ⟨f, ?_, rfl⟩
    apply List.mem_map.mpr
    refine ⟨f, hf, ?_⟩
    simp [h1, h2, h3, h4]

/-- A sample record with one field of every reserved role plus a plain
field, for the create() witness. -/
def oFresh : MongoObject :=
  ⟨"BlogObject",
   [⟨"title", .vStr "x"⟩, ⟨"created_at", .vNull⟩, ⟨"updated_at", .vNull⟩,
    ⟨"lock_revision", .vNull⟩],
   [], none⟩

theorem create_stamps_and_inserts_witness :
    (fieldNames oFresh.fields).Nodup
    ∧ ((∀ f ∈ oFresh.fields,
         ((strLower f.name = "created_at" ∨ strLower f.name = "updated_at"
             ∨ strLower f.name = "modified_at") →
            (f.name, MValue.vTime 42) ∈ (oFresh.create 42 stOK 7).sentDoc)
         ∧ (strLower f.name = "lock_revision" →
            (f.name, MValue.vInt 1) ∈ (oFresh.create 42 stOK 7).sentDoc)
         ∧ ((strLower f.name ≠ "created_at" ∧ strLower f.name ≠ "updated_at"
              ∧ strLower f.name ≠ "modified_at" ∧ strLower f.name ≠ "lock_revision") →
            (f.name, f.value) ∈ (oFresh.create 42 stOK 7).sentDoc))
       ∧ ((oFresh.create 42 stOK 7).sentDoc).map Prod.fst = fieldNames oFresh.fields) :=
  ⟨by decide, create_stamps_and_inserts oFresh 42 stOK 7 (by decide)⟩

theorem create_obj_of_ok (o : MongoObject) (now : Nat) (store : StoreResult) (newId : Nat)
    (hnd : (fieldNames o.fields).Nodup)
    (hid : "_id" ∉ fieldNames o.fields)
    (hret : store.ret = true) :
    (o.create now store newId).obj =
      { o with fields := createStamp now o.fields,
               doc := fieldsDoc (createStamp now o.fields) ++ [("_id", .vId newId)],
               objId := some newId } := by
  have hnames := createStamp_names now o.fields
  have hnd2 : (fieldNames (createStamp now o.fields)).Nodup := by rw [hnames]; exact hnd
  have hid2 : "_id" ∉ fieldNames (createStamp now o.fields) := by rw [hnames]; exact hid
  have hdoc1 : (syncToVariantMap { o with fields := createStamp now o.fields }).doc =
      fieldsDoc (createStamp now o.fields) :=
    svMap_doc { o with fields := createStamp now o.fields } hnd2
  have hdoc2 : docInsert (fieldsDoc (createStamp now o.fields)) "_id" (.vId newId) =
      fieldsDoc (createStamp now o.fields) ++ [("_id", .vId newId)] := by
    unfold docInsert
    rw [filter_ne_key _ _ (fun p hp he => hid2 (by rw [← he]; exact pair_fst_mem _ p hp))]
  have hfold : (fieldsDoc (createStamp now o.fields) ++
        [(("_id" : String), (MValue.vId newId))]).foldl
        (fun fs p => setPropL fs p.1 p.2) (createStamp now o.fields) =
      createStamp now o.fields := by
    rw [List.foldl_append]
    rw [foldl_setPropL_id _ _ (fields_pair_consistent _ hnd2)]
    simp only [List.foldl_cons, List.foldl_nil]
    apply setPropL_id
    intro f hf he
    exact absurd (by rw [← he]; exact List.mem_map_of_mem FieldE.name hf) hid2
  unfold MongoObject.create syncToObject
  rw [if_pos hret]
  simp only [hdoc1, hdoc2]
  rw [syncToVariantMap_fields]
  simp only [hfold]
  rfl

/-- C9: syncing typed fields from the document produced by syncing them to
the document is the identity on the declared fields
(fromDocument(toDocument(R)) leaves every declared field unchanged);
consequently isModified() is false right after a successful update() or
create(), and false for a brand-new, never-persisted record. -/
theorem sync_roundtrip_isModified (o : MongoObject) (now : Nat)
    (storeU storeC : StoreResult) (newId : Nat)
    (hnd : (fieldNames o.fields).Nodup)
    (hid : "_id" ∉ fieldNames o.fields) :
    (syncToObject (syncToVariantMap o)).fields = o.fields
    ∧ ((o.update now storeU).result = .ret true → isModified (o.update now storeU).obj = false)
    ∧ ((o.create now storeC newId).result = .ret true →
        isModified (o.create now storeC newId).obj = false)
    ∧ (o.isNew = true → isModified o = false) := by
  refine ⟨?_, ?_, ?_, ?_⟩
  · unfold syncToObject
    rw [svMap_doc o hnd, syncToVariantMap_fields]
    exact foldl_setPropL_id (fieldsDoc o.fields) o.fields (fields_pair_consistent o.fields hnd)
  · intro hres
    unfold MongoObject.update at hres ⊢
    by_cases hnull : o.isNull = true
    · simp [hnull] at hres
    · have hnull' : o.isNull = false := by simpa using hnull
      simp only [hnull', Bool.false_eq_true, if_false] at hres ⊢
      cases hupd : updFields now o.fields false false [] with
      | error fs' =>
        rw [hupd] at hres
        simp at hres
      | ok res =>
        obtain ⟨fs', hasRev, cri⟩ := res
        rw [hupd] at hres
        have hndf : (fieldNames fs').Nodup := by
          have hn2 := updFields_names now o.fields false false []
          rw [hupd] at hn2
          simp only [exFields, fieldNames] at hn2
          show (List.map FieldE.name fs').Nodup
          rw [hn2]
          simpa [fieldNames] using hnd
        by_cases hcond : (hasRev && storeU.numAffected != 1) = true
        · simp only [hcond, if_true] at hres
          simp at hres
        · have hcond' : (hasRev && storeU.numAffected != 1) = false := by simpa using hcond
          simp only [hcond', Bool.false_eq_true, if_false]
          exact isModified_syncToVariantMap { o with fields := fs' } hndf
  · intro hres
    by_cases hret : storeC.ret = true
    · have hnames := createStamp_names now o.fields
      have hnd2 : (fieldNames (createStamp now o.fields)).Nodup := by rw [hnames]; exact hnd
      have hid2 : "_id" ∉ fieldNames (createStamp now o.fields) := by rw [hnames]; exact hid
      rw [create_obj_of_ok o now storeC newId hnd hid hret]
      apply isModified_eq_false_of_doc
      intro p hp
      rcases List.mem_append.mp hp with h1 | h2
      · left
        exact getProp_of_pair _ hnd2 p h1
      · right
        have hpe : p = ("_id", .vId newId) := by simpa using h2
        rw [hpe]
        exact getProp_eq_none _ _ hid2
    · unfold MongoObject.create at hres
      simp [hret] at hres
  · intro hnew
    unfold isModified
    simp [hnew]

theorem sync_roundtrip_isModified_witness :
    ((fieldNames oPlain.fields).Nodup ∧ "_id" ∉ fieldNames oPlain.fields)
    ∧ ((syncToObject (syncToVariantMap oPlain)).fields = oPlain.fields
       ∧ ((oPlain.update 3 stOK).result = .ret true →
           isModified (oPlain.update 3 stOK).obj = false)
       ∧ ((oPlain.create 3 stOK 42).result = .ret true →
           isModified (oPlain.create 3 stOK 42).obj = false)
       ∧ (oPlain.isNew = true → isModified oPlain = false)) :=
  ⟨⟨by decide, by decide⟩,
   sync_roundtrip_isModified oPlain 3 stOK stOK 42 (by decide) (by decide)⟩
